import Mathlib

/-!
# Flow: the platform compatibility layer (`src/csrc/compat.c`)

A shallow embedding of the three functions of `compat.c` and of the
preprocessor chain that picks one arm of each of them.

* A `uint32_t` is a `Nat` below `2 ^ 32`; an `int` is an `Int`.
* The host byte order, a fixed fact of a build, is an explicit argument.
* The C library facilities the arms call (`htonl`, the byte swaps, `wcwidth`,
  `wcswidth`, `wcslen`) are not part of the repository: `wcwidth` is an
  argument, `wcswidth` is the scan POSIX defines, the others are modelled from
  the specification.
* A wide string (`int* s`) is the list of the elements stored at `s`.
* An arm that is not well-formed C has no value: `compat_htole` answers an
  `Option`.
-/

namespace Flow

/-! ## Platform selection -/

/-- The four predefined macros tested by the `#if defined(...)` chains. -/
structure Signals where
  linux : Bool
  apple : Bool
  gnu_hurd : Bool
  mingw32 : Bool
  deriving DecidableEq, Repr

/-- The five arms of every `#if / #elif / #else` chain of `compat.c`. -/
inductive Branch where
  | linux
  | apple
  | hurd
  | windows
  | bsd
  deriving DecidableEq, Repr

/-- Number of platform macros that are defined. -/
def signalCount (d : Signals) : Nat :=
  d.linux.toNat + d.apple.toNat + d.gnu_hurd.toNat + d.mingw32.toNat

/-- The chain `#if defined(__linux__) / #elif defined(__APPLE__) /
#elif defined(__gnu_hurd__) / #elif defined(__MINGW32__) / #else`, written out
identically four times in `compat.c` (the include block and the three function
bodies). The result is `none` when the build is refused; the chain has no
`#error` arm, so no arm yields `none`. -/
def dispatch (d : Signals) : Option Branch :=
  if d.linux then some Branch.linux
  else if d.apple then some Branch.apple
  else if d.gnu_hurd then some Branch.hurd
  else if d.mingw32 then some Branch.windows
  else some Branch.bsd

/-! ## Byte order -/

/-- Byte order of the host the build runs on. -/
inductive Endian where
  | little
  | big
  deriving DecidableEq, Repr

/-- Byte number `i` of `x`, byte 0 being the least significant. -/
def byteAt (x i : Nat) : Nat := x / 256 ^ i % 256

/-- The four bytes of a 32-bit value, least significant first. -/
def leBytes (x : Nat) : List Nat := [byteAt x 0, byteAt x 1, byteAt x 2, byteAt x 3]

/-- The four bytes of a 32-bit value as the host stores them, in increasing
address order. -/
def memBytes (h : Endian) (v : Nat) : List Nat :=
  match h with
  | Endian.little => [byteAt v 0, byteAt v 1, byteAt v 2, byteAt v 3]
  | Endian.big => [byteAt v 3, byteAt v 2, byteAt v 1, byteAt v 0]

/-- Modelled from the spec: the "32-bit byte-reversal" that the swap
primitives of the platforms perform (none of them is part of the repository):
the byte of weight `2 ^ 0` goes to weight `2 ^ 24`, `2 ^ 8` to `2 ^ 16`,
`2 ^ 16` to `2 ^ 8` and `2 ^ 24` to `2 ^ 0`. Bits above the 32nd are dropped. -/
def rev32 (x : Nat) : Nat :=
  x % 256 * 2 ^ 24 + x / 2 ^ 8 % 256 * 2 ^ 16 + x / 2 ^ 16 % 256 * 2 ^ 8 + x / 2 ^ 24 % 256

/-- Modelled from the spec: the "explicit 32-bit byte-reversal step" of glibc
(`<byteswap.h>`, used by the Linux and Hurd arms), which is not part of the
repository. -/
def __bswap_32 (x : Nat) : Nat := rev32 x

/-- Modelled from the spec: the 32-bit byte reversal of
`<libkern/OSByteOrder.h>` (Apple arm), which is not part of the repository. -/
def OSSwapInt32 (x : Nat) : Nat := rev32 x

/-- Modelled from the spec: the "convert to network byte order" step of
`<arpa/inet.h>`, "a no-op on big-endian hosts, byte-reversal on little-endian
hosts"; it is not part of the repository. -/
def htonl (h : Endian) (x : Nat) : Nat :=
  match h with
  | Endian.little => rev32 x
  | Endian.big => x

/-- The function `compat_htole` of `compat.c`, one arm per branch; the answer
is `none` where the arm gives the function no value. The BSD arm reads
`return bswap32(htonl(x)));`: it opens two parentheses and closes three, so it
is not a C statement, whatever the headers hold, and a build that takes this
arm has no `compat_htole`. -/
def compat_htole (b : Branch) (h : Endian) (x : Nat) : Option Nat :=
  match b with
  | Branch.linux => some (__bswap_32 (htonl h x))
  | Branch.apple => some (OSSwapInt32 (htonl h x))
  | Branch.hurd => some (__bswap_32 (htonl h x))
  | Branch.windows => some x
  | Branch.bsd => none

/-! ## Display width -/

/-- The conversion `(int)` of a `size_t` value on a platform whose `int` has
32 bits: the value is reduced modulo `2 ^ 32` and read as two's complement. -/
def toInt32 (n : Nat) : Int :=
  if n % 2 ^ 32 < 2 ^ 31 then (n % 2 ^ 32 : Nat) else ((n % 2 ^ 32 : Nat) : Int) - 2 ^ 32

/-- Modelled from the spec: the "terminator-based scan" `wcslen` of the C
library, which is not part of the repository: the number of elements before
the first zero element. -/
def wcslen : List Int → Nat
  | [] => 0
  | c :: cs => if c = 0 then 0 else wcslen cs + 1

/-- The scan of the platform's `wcswidth`, as POSIX defines it and the C
libraries implement it (`while (n-- > 0 && *s != 0)`): at most `n` elements
are visited and the scan ends at the first zero element; the width of each
element visited is added to `acc`, and -1 is answered as soon as one of these
widths is -1. -/
def wcswidthFrom (wcwidth : Int → Int) : List Int → Nat → Int → Int
  | _, 0, acc => acc
  | [], _ + 1, acc => acc
  | c :: cs, n + 1, acc =>
    if c = 0 then acc
    else if wcwidth c = -1 then -1
    else wcswidthFrom wcwidth cs n (acc + wcwidth c)

/-- The platform's sequence-width facility `wcswidth` of the C library, which
is not part of the repository: the scan above, started with a total of 0. The
element widths come from the platform's `wcwidth`. -/
def wcswidth (wcwidth : Int → Int) (s : List Int) (n : Nat) : Int :=
  wcswidthFrom wcwidth s n 0

/-- The elements of `s` that count for a width over `n` elements: those among
the first `n` that come before the first zero element. -/
def scannedPrefix (s : List Int) (n : Nat) : List Int :=
  (s.take n).takeWhile (fun c => decide (c ≠ 0))

/-- A width table in the manner of glibc, used at concrete inputs: 0 for the
null element, -1 for the other control characters, 2 for the wide code point
0x4E2D, 1 otherwise. -/
def sampleWidth (c : Int) : Int :=
  if c = 0 then 0 else if c < 32 then -1 else if c = 20013 then 2 else 1

/-- The function `compat_wcwidth` of `compat.c`. The platform's `wcwidth` is
an argument. -/
def compat_wcwidth (wcwidth : Int → Int) (b : Branch) (wc : Int) : Int :=
  match b with
  | Branch.linux => wcwidth wc
  | Branch.apple => wcwidth wc
  | Branch.hurd => 1
  | Branch.windows => 1
  | Branch.bsd => wcwidth wc

/-- The function `compat_wcswidth` of `compat.c`, with parameters `s` and `n`.
The Hurd and Windows arms read `return (int) wcslen(w);`: they measure an
object called `w`, which is neither a parameter nor a local of the function and
is declared nowhere in the file. It is kept apart from `s` as the argument
`w`. -/
def compat_wcswidth (wcwidth : Int → Int) (b : Branch) (w s : List Int) (n : Nat) : Int :=
  match b with
  | Branch.linux => wcswidth wcwidth s n
  | Branch.apple => wcswidth wcwidth s n
  | Branch.hurd => toInt32 (wcslen w)
  | Branch.windows => toInt32 (wcslen w)
  | Branch.bsd => wcswidth wcwidth s n

/-! ## Auxiliary facts -/

/-- Reading back the four bytes of a value assembled from four bytes. -/
theorem bytes_of_pack (a b c d : Nat) (ha : a < 256) (hb : b < 256) (hc : c < 256)
    (hd : d < 256) :
    (a * 2 ^ 24 + b * 2 ^ 16 + c * 2 ^ 8 + d) % 256 = d ∧
    (a * 2 ^ 24 + b * 2 ^ 16 + c * 2 ^ 8 + d) / 2 ^ 8 % 256 = c ∧
    (a * 2 ^ 24 + b * 2 ^ 16 + c * 2 ^ 8 + d) / 2 ^ 16 % 256 = b ∧
    (a * 2 ^ 24 + b * 2 ^ 16 + c * 2 ^ 8 + d) / 2 ^ 24 % 256 = a := by
  refine ⟨?_, ?_, ?_, ?_⟩ <;> omega

/-- A 32-bit value is the sum of its four bytes. -/
theorem pack_of_bytes (x : Nat) (hx : x < 2 ^ 32) :
    x / 2 ^ 24 % 256 * 2 ^ 24 + x / 2 ^ 16 % 256 * 2 ^ 16 + x / 2 ^ 8 % 256 * 2 ^ 8 + x % 256
      = x := by
  omega

/-- The byte reversal is its own inverse on 32-bit values. -/
theorem rev32_rev32 (x : Nat) (hx : x < 2 ^ 32) : rev32 (rev32 x) = x := by
  unfold rev32
  have h0 : x % 256 < 256 := Nat.mod_lt _ (by norm_num)
  have h1 : x / 2 ^ 8 % 256 < 256 := Nat.mod_lt _ (by norm_num)
  have h2 : x / 2 ^ 16 % 256 < 256 := Nat.mod_lt _ (by norm_num)
  have h3 : x / 2 ^ 24 % 256 < 256 := Nat.mod_lt _ (by norm_num)
  obtain ⟨e0, e1, e2, e3⟩ := bytes_of_pack _ _ _ _ h0 h1 h2 h3
  rw [e0, e1, e2, e3]
  exact pack_of_bytes x hx

/-- The byte reversal of any value fits in 32 bits. -/
theorem rev32_lt (x : Nat) : rev32 x < 2 ^ 32 := by
  unfold rev32
  omega

/-- The bytes of a reversed value are the bytes of the value in the opposite
order. -/
theorem byteAt_rev32 (x : Nat) :
    byteAt (rev32 x) 0 = byteAt x 3 ∧ byteAt (rev32 x) 1 = byteAt x 2 ∧
    byteAt (rev32 x) 2 = byteAt x 1 ∧ byteAt (rev32 x) 3 = byteAt x 0 := by
  unfold rev32
  have h0 : x % 256 < 256 := Nat.mod_lt _ (by norm_num)
  have h1 : x / 2 ^ 8 % 256 < 256 := Nat.mod_lt _ (by norm_num)
  have h2 : x / 2 ^ 16 % 256 < 256 := Nat.mod_lt _ (by norm_num)
  have h3 : x / 2 ^ 24 % 256 < 256 := Nat.mod_lt _ (by norm_num)
  obtain ⟨e0, e1, e2, e3⟩ := bytes_of_pack _ _ _ _ h0 h1 h2 h3
  have p0 : (256 : Nat) ^ 0 = 1 := by norm_num
  have p1 : (256 : Nat) ^ 1 = 2 ^ 8 := by norm_num
  have p2 : (256 : Nat) ^ 2 = 2 ^ 16 := by norm_num
  have p3 : (256 : Nat) ^ 3 = 2 ^ 24 := by norm_num
  unfold byteAt
  rw [p0, p1, p2, p3, Nat.div_one, Nat.div_one, e0, e1, e2, e3]
  exact ⟨rfl, rfl, rfl, rfl⟩

/-- The Linux, Apple and Hurd arms of `compat_htole` compute
`rev32 (htonl h x)`. -/
theorem compat_htole_swap_arm (b : Branch) (h : Endian) (x : Nat)
    (hb : b = Branch.linux ∨ b = Branch.apple ∨ b = Branch.hurd) :
    compat_htole b h x = some (rev32 (htonl h x)) := by
  rcases hb with rfl | rfl | rfl <;> rfl

/-- What the scan of `wcswidth` answers: -1 when one of the elements before
the first zero among the first `n` has width -1, and otherwise the accumulator
plus the widths of these elements. -/
theorem wcswidthFrom_eq (wcwidth : Int → Int) (s : List Int) :
    ∀ (n : Nat) (acc : Int),
      ((∃ c ∈ scannedPrefix s n, wcwidth c = -1) → wcswidthFrom wcwidth s n acc = -1) ∧
      ((∀ c ∈ scannedPrefix s n, wcwidth c ≠ -1) →
        wcswidthFrom wcwidth s n acc = acc + ((scannedPrefix s n).map wcwidth).sum) := by
  induction s with
  | nil =>
    intro n acc
    cases n <;> simp [wcswidthFrom, scannedPrefix]
  | cons c cs ih =>
    intro n acc
    cases n with
    | zero => simp [wcswidthFrom, scannedPrefix]
    | succ n =>
      obtain ⟨ih1, ih2⟩ := ih n (acc + wcwidth c)
      by_cases h0 : c = 0
      · simp [wcswidthFrom, scannedPrefix, h0]
      · have hp : scannedPrefix (c :: cs) (n + 1) = c :: scannedPrefix cs n := by
          simp [scannedPrefix, h0]
        rw [hp]
        by_cases hc : wcwidth c = -1
        · simp [wcswidthFrom, h0, hc]
        · refine ⟨?_, ?_⟩
          · rintro ⟨e, he, hw⟩
            simp only [List.mem_cons] at he
            rcases he with rfl | he
            · exact absurd hw hc
            · simp only [wcswidthFrom, h0, hc, if_false]
              exact ih1 ⟨e, he, hw⟩
          · intro hall
            simp only [List.mem_cons, forall_eq_or_imp] at hall
            simp only [wcswidthFrom, h0, hc, if_false, List.map_cons, List.sum_cons]
            rw [ih2 hall.2]
            ring

/-- The Hurd and Windows arms of `compat_wcswidth` answer the length of `w`,
converted to `int`, whatever `s` and `n` are. -/
theorem compat_wcswidth_degraded_eq (wcwidth : Int → Int) (w s : List Int) (n : Nat) :
    compat_wcswidth wcwidth Branch.hurd w s n = toInt32 (wcslen w) ∧
    compat_wcswidth wcwidth Branch.windows w s n = toInt32 (wcslen w) :=
  ⟨rfl, rfl⟩

/-! ## The claims -/

/-- C1. On the Linux, Apple and Hurd arms, for every 32-bit `x`:
`compat_htole` returns `x` on a little-endian host and the byte-reversed form
of `x` (a 32-bit value whose bytes are those of `x` in the opposite order) on
a big-endian host; on both hosts the bytes of the result, read in memory
order, are the bytes of `x` least significant first. The BSD arm, which the
claim covers too, returns no value for any host and any `x`. -/
theorem compat_htole_layout_except_bsd :
    (∀ (b : Branch) (x : Nat), x < 2 ^ 32 →
      (b = Branch.linux ∨ b = Branch.apple ∨ b = Branch.hurd) →
        compat_htole b Endian.little x = some x ∧
        (∃ v : Nat, compat_htole b Endian.big x = some v ∧ v < 2 ^ 32 ∧
          leBytes v = (leBytes x).reverse) ∧
        ∀ h : Endian, (compat_htole b h x).map (memBytes h) = some (leBytes x)) ∧
    (∀ (h : Endian) (x : Nat), compat_htole Branch.bsd h x = none) := by
  refine ⟨?_, fun _ _ => rfl⟩
  intro b x hx hb
  obtain ⟨r0, r1, r2, r3⟩ := byteAt_rev32 x
  have hl : compat_htole b Endian.little x = some x := by
    rw [compat_htole_swap_arm b _ x hb]
    simp only [htonl]
    rw [rev32_rev32 x hx]
  have hbig : compat_htole b Endian.big x = some (rev32 x) := compat_htole_swap_arm b _ x hb
  refine ⟨hl, ⟨rev32 x, hbig, rev32_lt x, ?_⟩, ?_⟩
  · simp [leBytes, r0, r1, r2, r3]
  · intro h
    cases h
    · rw [hl]
      rfl
    · rw [hbig]
      simp [memBytes, leBytes, r0, r1, r2, r3]

/-- Witness for C1: the Hurd arm at `x = 0x11223344`. -/
theorem compat_htole_layout_except_bsd_witness :
    compat_htole Branch.hurd Endian.little 287454020 = some 287454020 ∧
    (∃ v : Nat, compat_htole Branch.hurd Endian.big 287454020 = some v ∧ v < 2 ^ 32 ∧
      leBytes v = (leBytes 287454020).reverse) ∧
    ∀ h : Endian,
      (compat_htole Branch.hurd h 287454020).map (memBytes h) = some (leBytes 287454020) :=
  compat_htole_layout_except_bsd.1 Branch.hurd 287454020 (by norm_num)
    (Or.inr (Or.inr rfl))

/-- C2. On the Linux, Apple, Hurd and Windows arms and for either host byte
order, applying to `compat_htole x` the same swap composition once more, which
is the matching conversion from little-endian on that host, gives back the
32-bit `x`. On the BSD arm, which the claim covers too, the round trip has no
value. -/
theorem compat_htole_round_trip_except_bsd :
    (∀ (b : Branch) (h : Endian) (x : Nat), x < 2 ^ 32 → b ≠ Branch.bsd →
      (compat_htole b h x).bind (compat_htole b h) = some x) ∧
    (∀ (h : Endian) (x : Nat),
      (compat_htole Branch.bsd h x).bind (compat_htole Branch.bsd h) = none) := by
  refine ⟨?_, fun _ _ => rfl⟩
  intro b h x hx hb
  have hrr := rev32_rev32 x hx
  cases b
  case bsd => exact absurd rfl hb
  case windows => rfl
  all_goals
    cases h
    · simp [compat_htole, __bswap_32, OSSwapInt32, htonl, hrr]
    · simp [compat_htole, __bswap_32, OSSwapInt32, htonl, hrr]

/-- Witness for C2: the Apple arm on a big-endian host at `x = 0x11223344`. -/
theorem compat_htole_round_trip_except_bsd_witness :
    (compat_htole Branch.apple Endian.big 287454020).bind
      (compat_htole Branch.apple Endian.big) = some 287454020 :=
  compat_htole_round_trip_except_bsd.1 Branch.apple Endian.big 287454020 (by norm_num)
    (by decide)

/-- C8. The Windows arm returns `x` unchanged on either host. On a
little-endian host the bytes of the result in memory order are the bytes of
`x` least significant first, for every `x`; on a big-endian host they are not
for some 32-bit `x`. -/
theorem compat_htole_windows_identity :
    (∀ (h : Endian) (x : Nat), compat_htole Branch.windows h x = some x) ∧
    (∀ x : Nat,
      (compat_htole Branch.windows Endian.little x).map (memBytes Endian.little)
        = some (leBytes x)) ∧
    (∃ x : Nat, x < 2 ^ 32 ∧
      (compat_htole Branch.windows Endian.big x).map (memBytes Endian.big)
        ≠ some (leBytes x)) := by
  refine ⟨fun _ _ => rfl, fun _ => rfl, 1, by norm_num, ?_⟩
  simp [compat_htole, memBytes, leBytes, byteAt]

/-- C9. For every 32-bit `x`: on either host the Linux, Apple and Hurd arms of
`compat_htole` return one and the same value, and on a little-endian host the
Windows arm returns that value too. The BSD arm, which the claim counts among
the equivalent ones, returns no value and so differs from the Linux arm on
every host and every `x`. -/
theorem compat_htole_arms_agree_except_bsd :
    (∀ x : Nat, x < 2 ^ 32 →
      (∀ h : Endian, ∃ v : Nat, compat_htole Branch.linux h x = some v ∧
        compat_htole Branch.apple h x = some v ∧ compat_htole Branch.hurd h x = some v) ∧
      compat_htole Branch.windows Endian.little x
        = compat_htole Branch.linux Endian.little x) ∧
    (∀ (h : Endian) (x : Nat), compat_htole Branch.bsd h x = none ∧
      compat_htole Branch.bsd h x ≠ compat_htole Branch.linux h x) := by
  refine ⟨?_, fun h x => ⟨rfl, ?_⟩⟩
  · intro x hx
    refine ⟨fun h => ⟨rev32 (htonl h x), rfl, rfl, rfl⟩, ?_⟩
    simp [compat_htole, __bswap_32, htonl, rev32_rev32 x hx]
  · simp [compat_htole]

/-- Witness for C9 at `x = 0x11223344`. -/
theorem compat_htole_arms_agree_except_bsd_witness :
    (∀ h : Endian, ∃ v : Nat, compat_htole Branch.linux h 287454020 = some v ∧
      compat_htole Branch.apple h 287454020 = some v ∧
      compat_htole Branch.hurd h 287454020 = some v) ∧
    compat_htole Branch.windows Endian.little 287454020
      = compat_htole Branch.linux Endian.little 287454020 :=
  compat_htole_arms_agree_except_bsd.1 287454020 (by norm_num)

/-- C3. On the Hurd and Windows arms `compat_wcwidth` returns 1 for every
input, whatever the platform's `wcwidth` would answer: for code point 0, for
negative values and for wide code points alike. -/
theorem compat_wcwidth_degraded_one (wcwidth : Int → Int) (wc : Int) :
    compat_wcwidth wcwidth Branch.hurd wc = 1 ∧
    compat_wcwidth wcwidth Branch.windows wc = 1 :=
  ⟨rfl, rfl⟩

/-- C10. On the Linux, Apple and BSD arms `compat_wcwidth wc` is the answer of
the platform's `wcwidth` on `wc`, unchanged; so it is -1 exactly when the
platform's answer is -1. -/
theorem compat_wcwidth_delegates (wcwidth : Int → Int) (wc : Int) :
    (compat_wcwidth wcwidth Branch.linux wc = wcwidth wc ∧
      compat_wcwidth wcwidth Branch.apple wc = wcwidth wc ∧
      compat_wcwidth wcwidth Branch.bsd wc = wcwidth wc) ∧
    ((compat_wcwidth wcwidth Branch.linux wc = -1 ↔ wcwidth wc = -1) ∧
      (compat_wcwidth wcwidth Branch.apple wc = -1 ↔ wcwidth wc = -1) ∧
      (compat_wcwidth wcwidth Branch.bsd wc = -1 ↔ wcwidth wc = -1)) :=
  ⟨⟨rfl, rfl, rfl⟩, Iff.rfl, Iff.rfl, Iff.rfl⟩

/-- C5, as the code has it: on the Linux, Apple and BSD arms
`compat_wcswidth s n` looks at the first `n` elements of `s` only up to the
first zero element among them. It is the sum of `compat_wcwidth` over these
elements when none of their widths is -1, and -1 when one of their widths
is -1. -/
theorem compat_wcswidth_capable_scanned_sum (wcwidth : Int → Int) (b : Branch)
    (w s : List Int) (n : Nat)
    (hb : b = Branch.linux ∨ b = Branch.apple ∨ b = Branch.bsd) :
    ((∀ c ∈ scannedPrefix s n, compat_wcwidth wcwidth b c ≠ -1) →
      compat_wcswidth wcwidth b w s n
        = ((scannedPrefix s n).map (compat_wcwidth wcwidth b)).sum) ∧
    ((∃ c ∈ scannedPrefix s n, compat_wcwidth wcwidth b c = -1) →
      compat_wcswidth wcwidth b w s n = -1) := by
  obtain ⟨h1, h2⟩ := wcswidthFrom_eq wcwidth s n 0
  have hw : compat_wcwidth wcwidth b = wcwidth := by
    funext c
    rcases hb with rfl | rfl | rfl <;> rfl
  have hs : compat_wcswidth wcwidth b w s n = wcswidthFrom wcwidth s n 0 := by
    rcases hb with rfl | rfl | rfl <;> rfl
  rw [hw, hs]
  refine ⟨fun hall => ?_, h1⟩
  rw [h2 hall, zero_add]

/-- Witness for C5 as the code has it: the Linux arm on the sequence `A`, a
wide character, zero, `B` with `n = 4`, where the elements that count are `A`
and the wide character. -/
theorem compat_wcswidth_capable_scanned_sum_witness :
    scannedPrefix [65, 20013, 0, 66] 4 = [65, 20013] ∧
    compat_wcswidth sampleWidth Branch.linux [] [65, 20013, 0, 66] 4 = 3 ∧
    (((∀ c ∈ scannedPrefix [65, 20013, 0, 66] 4,
        compat_wcwidth sampleWidth Branch.linux c ≠ -1) →
      compat_wcswidth sampleWidth Branch.linux [] [65, 20013, 0, 66] 4
        = ((scannedPrefix [65, 20013, 0, 66] 4).map
            (compat_wcwidth sampleWidth Branch.linux)).sum) ∧
    ((∃ c ∈ scannedPrefix [65, 20013, 0, 66] 4,
        compat_wcwidth sampleWidth Branch.linux c = -1) →
      compat_wcswidth sampleWidth Branch.linux [] [65, 20013, 0, 66] 4 = -1)) :=
  ⟨by decide, by decide,
    compat_wcswidth_capable_scanned_sum sampleWidth Branch.linux [] [65, 20013, 0, 66] 4
      (Or.inl rfl)⟩

/-- C5 fails as stated. On the Linux arm with `s = A 0 B` and `n = 3` none of
the three widths is -1 and their sum is 2, yet `compat_wcswidth` returns 1;
with `s = A 0 BEL` and `n = 3` the width of the third element is -1, yet
`compat_wcswidth` returns 1 and not -1. -/
theorem compat_wcswidth_stops_at_zero :
    (([65, 0, 66] : List Int).take 3).map (compat_wcwidth sampleWidth Branch.linux)
      = [1, 0, 1] ∧
    compat_wcswidth sampleWidth Branch.linux [] [65, 0, 66] 3 = 1 ∧
    (([65, 0, 7] : List Int).take 3).map (compat_wcwidth sampleWidth Branch.linux)
      = [1, 0, -1] ∧
    compat_wcswidth sampleWidth Branch.linux [] [65, 0, 7] 3 = 1 := by
  refine ⟨by decide, by decide, by decide, by decide⟩

/-- C4. On the Hurd and Windows arms the value returned by `compat_wcswidth`
is the length of the object `w` that the arms name, not of the parameter `s`:
for the terminated sequence `s = A B 0`, whose first zero is at position 2,
and `n = 2`, the arms answer 0 when `w` is an empty string. -/
theorem compat_wcswidth_degraded_measures_w :
    wcslen [65, 66, 0] = 2 ∧
    compat_wcswidth (fun _ => 1) Branch.hurd [0] [65, 66, 0] 2 = 0 ∧
    compat_wcswidth (fun _ => 1) Branch.windows [0] [65, 66, 0] 2 = 0 := by
  refine ⟨by decide, by decide, by decide⟩

/-- C6, as the code has it: the chain never refuses. For every set of signals
it selects exactly one arm, the one of the first signal present in the order
`__linux__`, `__APPLE__`, `__gnu_hurd__`, `__MINGW32__`, and the BSD arm when
no signal is present. -/
theorem dispatch_first_match (d : Signals) :
    ∃ b : Branch, dispatch d = some b ∧
      (b = Branch.linux ↔ d.linux = true) ∧
      (b = Branch.apple ↔ d.linux = false ∧ d.apple = true) ∧
      (b = Branch.hurd ↔ d.linux = false ∧ d.apple = false ∧ d.gnu_hurd = true) ∧
      (b = Branch.windows ↔
        d.linux = false ∧ d.apple = false ∧ d.gnu_hurd = false ∧ d.mingw32 = true) ∧
      (b = Branch.bsd ↔
        d.linux = false ∧ d.apple = false ∧ d.gnu_hurd = false ∧ d.mingw32 = false) := by
  rcases d with ⟨_ | _, _ | _, _ | _, _ | _⟩ <;> simp [dispatch]

/-- C6 fails as stated: with both `__linux__` and `__APPLE__` present, and with
both `__APPLE__` and `__MINGW32__` present, two signals are present and the
chain selects an arm (the Linux arm, the Apple arm) instead of refusing; the
three functions are then the ones of that arm. -/
theorem dispatch_selects_on_ambiguous_signals :
    signalCount ⟨true, true, false, false⟩ = 2 ∧
    dispatch ⟨true, true, false, false⟩ = some Branch.linux ∧
    signalCount ⟨false, true, false, true⟩ = 2 ∧
    dispatch ⟨false, true, false, true⟩ = some Branch.apple ∧
    (dispatch ⟨true, true, false, false⟩).bind
      (fun b => compat_htole b Endian.big 287454020) = some 1144201745 ∧
    (dispatch ⟨true, true, false, false⟩).map
      (fun b => compat_wcwidth (fun _ => 2) b 20013) = some 2 ∧
    (dispatch ⟨true, true, false, false⟩).map
      (fun b => compat_wcswidth (fun _ => 2) b [] [20013, 20013, 0] 2) = some 4 := by
  refine ⟨by decide, by decide, by decide, by decide, by decide, by decide, by decide⟩

end Flow
